import Mathlib

/-!
Verification of the ray tracer's core against its natural-language
specification.  The C++ sources (vec3.h, ray.h, hitable.h, camera.h,
material.h, main.cpp) are shallowly embedded below: machine floats are
modelled as exact reals, out-parameters as explicit state passing, and the
static random generator as an explicit state record threaded through the
sampling functions.
-/

noncomputable section

/-- Embedding of `vec3` (vec3.h): three floating-point components, modelled
over the reals. -/
@[ext]
structure Vec3 where
  x : ℝ
  y : ℝ
  z : ℝ

namespace Vec3

instance : Add Vec3 := ⟨fun v w => ⟨v.x + w.x, v.y + w.y, v.z + w.z⟩⟩
instance : Sub Vec3 := ⟨fun v w => ⟨v.x - w.x, v.y - w.y, v.z - w.z⟩⟩
instance : Neg Vec3 := ⟨fun v => ⟨-v.x, -v.y, -v.z⟩⟩
/-- Component-wise multiplication, `operator*(vec3, vec3)` in vec3.h. -/
instance : Mul Vec3 := ⟨fun v w => ⟨v.x * w.x, v.y * w.y, v.z * w.z⟩⟩
/-- Scalar multiplication, `operator*(float, vec3)` in vec3.h. -/
instance : SMul ℝ Vec3 := ⟨fun t v => ⟨t * v.x, t * v.y, t * v.z⟩⟩
/-- Scalar division, `operator/(vec3, float)` in vec3.h. -/
instance : HDiv Vec3 ℝ Vec3 := ⟨fun v t => ⟨v.x / t, v.y / t, v.z / t⟩⟩

@[simp] lemma add_x (v w : Vec3) : (v + w).x = v.x + w.x := rfl
@[simp] lemma add_y (v w : Vec3) : (v + w).y = v.y + w.y := rfl
@[simp] lemma add_z (v w : Vec3) : (v + w).z = v.z + w.z := rfl
@[simp] lemma sub_x (v w : Vec3) : (v - w).x = v.x - w.x := rfl
@[simp] lemma sub_y (v w : Vec3) : (v - w).y = v.y - w.y := rfl
@[simp] lemma sub_z (v w : Vec3) : (v - w).z = v.z - w.z := rfl
@[simp] lemma neg_x (v : Vec3) : (-v).x = -v.x := rfl
@[simp] lemma neg_y (v : Vec3) : (-v).y = -v.y := rfl
@[simp] lemma neg_z (v : Vec3) : (-v).z = -v.z := rfl
@[simp] lemma mul_x (v w : Vec3) : (v * w).x = v.x * w.x := rfl
@[simp] lemma mul_y (v w : Vec3) : (v * w).y = v.y * w.y := rfl
@[simp] lemma mul_z (v w : Vec3) : (v * w).z = v.z * w.z := rfl
@[simp] lemma smul_x (t : ℝ) (v : Vec3) : (t • v).x = t * v.x := rfl
@[simp] lemma smul_y (t : ℝ) (v : Vec3) : (t • v).y = t * v.y := rfl
@[simp] lemma smul_z (t : ℝ) (v : Vec3) : (t • v).z = t * v.z := rfl
@[simp] lemma div_x (v : Vec3) (t : ℝ) : (v / t).x = v.x / t := rfl
@[simp] lemma div_y (v : Vec3) (t : ℝ) : (v / t).y = v.y / t := rfl
@[simp] lemma div_z (v : Vec3) (t : ℝ) : (v / t).z = v.z / t := rfl

/-- `vec3::squared_length` (vec3.h). -/
def squared_length (v : Vec3) : ℝ := v.x * v.x + v.y * v.y + v.z * v.z

/-- `vec3::length` (vec3.h). -/
def length (v : Vec3) : ℝ := Real.sqrt v.squared_length

end Vec3

/-- `dot` (vec3.h). -/
def dot (v w : Vec3) : ℝ := v.x * w.x + v.y * w.y + v.z * w.z

/-- `cross` (vec3.h). -/
def cross (v w : Vec3) : Vec3 :=
  ⟨v.y * w.z - v.z * w.y, -v.x * w.z + v.z * w.x, v.x * w.y - v.y * w.x⟩

/-- `unit_vector` (vec3.h). -/
def unit_vector (v : Vec3) : Vec3 := v / v.length

lemma Vec3.squared_length_nonneg (v : Vec3) : 0 ≤ v.squared_length := by
  have hx := sq_nonneg v.x
  have hy := sq_nonneg v.y
  have hz := sq_nonneg v.z
  simp only [sq] at hx hy hz
  simp only [Vec3.squared_length]
  linarith

lemma Vec3.squared_length_eq_zero_iff (v : Vec3) :
    v.squared_length = 0 ↔ v = ⟨0, 0, 0⟩ := by
  constructor
  · intro h
    simp only [Vec3.squared_length] at h
    have hx : v.x = 0 := by nlinarith [sq_nonneg v.x, sq_nonneg v.y, sq_nonneg v.z]
    have hy : v.y = 0 := by nlinarith [sq_nonneg v.x, sq_nonneg v.y, sq_nonneg v.z]
    have hz : v.z = 0 := by nlinarith [sq_nonneg v.x, sq_nonneg v.y, sq_nonneg v.z]
    cases v
    simp_all
  · rintro rfl
    simp [Vec3.squared_length]

/-- A normalized nonzero vector has unit length. -/
lemma unit_vector_length (v : Vec3) (hv : v ≠ ⟨0, 0, 0⟩) :
    (unit_vector v).length = 1 := by
  have hsl : 0 < v.squared_length := by
    rcases lt_or_eq_of_le (Vec3.squared_length_nonneg v) with h | h
    · exact h
    · exact absurd ((Vec3.squared_length_eq_zero_iff v).mp h.symm) hv
  have hlen : 0 < v.length := Real.sqrt_pos.mpr hsl
  have hsq : v.length * v.length = v.squared_length :=
    Real.mul_self_sqrt (le_of_lt hsl)
  have h1 : (unit_vector v).squared_length = 1 := by
    simp only [unit_vector, Vec3.squared_length, Vec3.div_x, Vec3.div_y, Vec3.div_z]
    field_simp
    simp only [Vec3.squared_length] at hsq
    nlinarith [hsq]
  simp only [Vec3.length, h1, Real.sqrt_one]

/-- The length of a negated vector equals the length of the vector. -/
lemma Vec3.length_neg (v : Vec3) : (-v).length = v.length := by
  simp only [Vec3.length, Vec3.squared_length, Vec3.neg_x, Vec3.neg_y, Vec3.neg_z]
  ring_nf

/-- Embedding of `ray` (ray.h). -/
structure Ray where
  orig : Vec3
  dir : Vec3

namespace Ray

/-- `ray::at` (ray.h): `origin + t * direction` (`at` is reserved in Lean). -/
def point_at (r : Ray) (t : ℝ) : Vec3 := r.orig + t • r.dir

end Ray

/-- The three material kinds of material.h, as a closed variant. -/
inductive Material where
  | lambertian (albedo : Vec3)
  | metal (albedo : Vec3)
  | dielectric (ref_idx : ℝ)

/-- Embedding of `hit_record` (hitable.h).  `mat_ptr` is modelled by the
`mat` field holding the hit sphere's material. -/
structure HitRec where
  t : ℝ
  p : Vec3
  normal : Vec3
  mat : Material

/-- A default-initialized `hit_record`: `vec3` members default to zero; the
uninitialized float `t` and the null `mat_ptr` are modelled by arbitrary
values, which the code never observes before overwriting them. -/
def default_rec : HitRec := ⟨0, ⟨0, 0, 0⟩, ⟨0, 0, 0⟩, Material.lambertian ⟨0, 0, 0⟩⟩

/-- Embedding of `sphere` (hitable.h). -/
structure Sphere where
  center : Vec3
  radius : ℝ
  mat : Material

/-- `sphere::hit` (hitable.h) with the `rec` out-parameter made explicit:
the returned boolean is the C++ return value and the returned record is the
state of `rec` after the call. -/
def sphere_hit (s : Sphere) (r : Ray) (t_min t_max : ℝ) (rec : HitRec) :
    Bool × HitRec :=
  let oc := r.orig - s.center
  let a := dot r.dir r.dir
  let b := dot oc r.dir
  let c := dot oc oc - s.radius * s.radius
  let discriminant := b * b - a * c
  if 0 < discriminant then
    let temp := (-b - Real.sqrt discriminant) / a
    if temp < t_max ∧ t_min < temp then
      let p := r.point_at temp
      (true, ⟨temp, p, (p - s.center) / s.radius, s.mat⟩)
    else
      let temp2 := (-b + Real.sqrt discriminant) / a
      if temp2 < t_max ∧ t_min < temp2 then
        let p := r.point_at temp2
        (true, ⟨temp2, p, (p - s.center) / s.radius, s.mat⟩)
      else
        (false, rec)
  else
    (false, rec)

/-- `sphere::hit` as a partial function: `some` holds the record written on a
hit, `none` is a miss.  Same branches as `sphere_hit`. -/
def sphere_hitO (s : Sphere) (r : Ray) (t_min t_max : ℝ) : Option HitRec :=
  let oc := r.orig - s.center
  let a := dot r.dir r.dir
  let b := dot oc r.dir
  let c := dot oc oc - s.radius * s.radius
  let discriminant := b * b - a * c
  if 0 < discriminant then
    let temp := (-b - Real.sqrt discriminant) / a
    if temp < t_max ∧ t_min < temp then
      let p := r.point_at temp
      some ⟨temp, p, (p - s.center) / s.radius, s.mat⟩
    else
      let temp2 := (-b + Real.sqrt discriminant) / a
      if temp2 < t_max ∧ t_min < temp2 then
        let p := r.point_at temp2
        some ⟨temp2, p, (p - s.center) / s.radius, s.mat⟩
      else
        none
  else
    none

lemma sphere_hit_eq_opt (s : Sphere) (r : Ray) (t_min t_max : ℝ) (rec : HitRec) :
    sphere_hit s r t_min t_max rec =
      (sphere_hitO s r t_min t_max).elim (false, rec) (fun h => (true, h)) := by
  simp only [sphere_hit, sphere_hitO]
  split_ifs <;> rfl

lemma sphere_hit_true_iff (s : Sphere) (r : Ray) (t_min t_max : ℝ)
    (rec : HitRec) (hr : HitRec) :
    sphere_hit s r t_min t_max rec = (true, hr) ↔
      sphere_hitO s r t_min t_max = some hr := by
  rw [sphere_hit_eq_opt]
  cases h : sphere_hitO s r t_min t_max <;> simp [Option.elim]

lemma sphere_hit_fst_false_iff (s : Sphere) (r : Ray) (t_min t_max : ℝ)
    (rec : HitRec) :
    (sphere_hit s r t_min t_max rec).1 = false ↔
      sphere_hitO s r t_min t_max = none := by
  rw [sphere_hit_eq_opt]
  cases h : sphere_hitO s r t_min t_max <;> simp [Option.elim]

/-- The accepted parameter lies strictly inside the queried interval. -/
lemma sphere_hitO_bounds (s : Sphere) (r : Ray) (t_min t_max : ℝ) (hr : HitRec)
    (h : sphere_hitO s r t_min t_max = some hr) :
    t_min < hr.t ∧ hr.t < t_max := by
  simp only [sphere_hitO] at h
  split_ifs at h with h1 h2 h3
  · cases h
    exact ⟨h2.2, h2.1⟩
  · cases h
    exact ⟨h3.2, h3.1⟩

/-- If the discriminant is positive the quadratic's leading coefficient
`dot d d` is positive (a zero direction forces a zero discriminant). -/
lemma quad_coeff_pos (oc d : Vec3) (c : ℝ)
    (h : 0 < dot oc d * dot oc d - dot d d * c) : 0 < dot d d := by
  rcases lt_or_eq_of_le (by
      have := Vec3.squared_length_nonneg d
      simpa [Vec3.squared_length, dot] using this) with hpos | hzero
  · exact hpos
  · exfalso
    have hcs : dot oc d * dot oc d ≤
        (dot oc oc) * (dot d d) := by
      simp only [dot]
      nlinarith [sq_nonneg (oc.x * d.y - oc.y * d.x),
        sq_nonneg (oc.x * d.z - oc.z * d.x), sq_nonneg (oc.y * d.z - oc.z * d.y)]
    have hdd : dot d d = 0 := by
      simp only [dot]
      linarith
    rw [hdd] at hcs h
    nlinarith

/-- Abbreviation for the linear coefficient `b = oc · direction` of the
sphere quadratic (hitable.h). -/
def hit_b (s : Sphere) (r : Ray) : ℝ := dot (r.orig - s.center) r.dir

/-- Abbreviation for the quadratic coefficient `a = direction · direction`. -/
def hit_a (r : Ray) : ℝ := dot r.dir r.dir

/-- Abbreviation for the constant coefficient `c = oc · oc - radius²`. -/
def hit_c (s : Sphere) (r : Ray) : ℝ :=
  dot (r.orig - s.center) (r.orig - s.center) - s.radius * s.radius

/-- The discriminant `b² - a·c` of the sphere quadratic. -/
def hit_disc (s : Sphere) (r : Ray) : ℝ :=
  hit_b s r * hit_b s r - hit_a r * hit_c s r

/-- The smaller candidate root `(-b - √disc)/a`. -/
def hit_root1 (s : Sphere) (r : Ray) : ℝ :=
  (-hit_b s r - Real.sqrt (hit_disc s r)) / hit_a r

/-- The larger candidate root `(-b + √disc)/a`. -/
def hit_root2 (s : Sphere) (r : Ray) : ℝ :=
  (-hit_b s r + Real.sqrt (hit_disc s r)) / hit_a r

/-- The record `sphere::hit` writes when it accepts parameter `t`. -/
def hit_mk (s : Sphere) (r : Ray) (t : ℝ) : HitRec :=
  ⟨t, r.point_at t, (r.point_at t - s.center) / s.radius, s.mat⟩

lemma sphere_hitO_eq (s : Sphere) (r : Ray) (t_min t_max : ℝ) :
    sphere_hitO s r t_min t_max =
      if 0 < hit_disc s r then
        if hit_root1 s r < t_max ∧ t_min < hit_root1 s r then
          some (hit_mk s r (hit_root1 s r))
        else if hit_root2 s r < t_max ∧ t_min < hit_root2 s r then
          some (hit_mk s r (hit_root2 s r))
        else none
      else none := rfl

lemma hit_a_pos (s : Sphere) (r : Ray) (hd : 0 < hit_disc s r) : 0 < hit_a r := by
  simp only [hit_disc, hit_b, hit_a, hit_c] at hd ⊢
  exact quad_coeff_pos _ _ _ hd

lemma hit_root1_le_root2 (s : Sphere) (r : Ray) (hd : 0 < hit_disc s r) :
    hit_root1 s r ≤ hit_root2 s r := by
  have ha := hit_a_pos s r hd
  have hs : 0 ≤ Real.sqrt (hit_disc s r) := Real.sqrt_nonneg _
  simp only [hit_root1, hit_root2]
  gcongr
  linarith

/-- Exactly where `sphere::hit` succeeds and which record it writes. -/
lemma sphere_hitO_char (s : Sphere) (r : Ray) (t_min t_max : ℝ) (hr : HitRec)
    (h : sphere_hitO s r t_min t_max = some hr) :
    0 < hit_disc s r ∧
      ((hr = hit_mk s r (hit_root1 s r) ∧ hit_root1 s r < t_max ∧
          t_min < hit_root1 s r) ∨
        (hr = hit_mk s r (hit_root2 s r) ∧ hit_root2 s r < t_max ∧
          t_min < hit_root2 s r ∧ hit_root1 s r ≤ t_min)) := by
  rw [sphere_hitO_eq] at h
  split_ifs at h with hd h1 h2
  · exact ⟨hd, Or.inl ⟨(Option.some.inj h).symm, h1.1, h1.2⟩⟩
  · refine ⟨hd, Or.inr ⟨(Option.some.inj h).symm, h2.1, h2.2, ?_⟩⟩
    have h12 := hit_root1_le_root2 s r hd
    by_contra hc
    exact h1 ⟨lt_of_le_of_lt h12 h2.1, lt_of_not_le hc⟩

/-- `sphere::hit` accepts the near root when it is strictly in range. -/
lemma sphere_hitO_build1 (s : Sphere) (r : Ray) (t_min t_max : ℝ)
    (hd : 0 < hit_disc s r) (h1 : hit_root1 s r < t_max) (h2 : t_min < hit_root1 s r) :
    sphere_hitO s r t_min t_max = some (hit_mk s r (hit_root1 s r)) := by
  rw [sphere_hitO_eq, if_pos hd, if_pos ⟨h1, h2⟩]

/-- `sphere::hit` accepts the far root when the near root fails the lower
bound and the far root is strictly in range. -/
lemma sphere_hitO_build2 (s : Sphere) (r : Ray) (t_min t_max : ℝ)
    (hd : 0 < hit_disc s r) (h0 : hit_root1 s r ≤ t_min)
    (h1 : hit_root2 s r < t_max) (h2 : t_min < hit_root2 s r) :
    sphere_hitO s r t_min t_max = some (hit_mk s r (hit_root2 s r)) := by
  rw [sphere_hitO_eq, if_pos hd, if_neg (fun hc => absurd h0 (not_le.mpr hc.2)),
    if_pos ⟨h1, h2⟩]

/-- A hit found under a tighter upper bound is also the hit found under the
full range, with the identical record. -/
lemma sphere_hitO_mono_up (s : Sphere) (r : Ray) (t_min T t_max : ℝ)
    (hT : T ≤ t_max) (hr : HitRec) (h : sphere_hitO s r t_min T = some hr) :
    sphere_hitO s r t_min t_max = some hr := by
  obtain ⟨hd, hcase⟩ := sphere_hitO_char s r t_min T hr h
  rcases hcase with ⟨rfl, hlt, hgt⟩ | ⟨rfl, hlt, hgt, hle⟩
  · exact sphere_hitO_build1 s r t_min t_max hd (lt_of_lt_of_le hlt hT) hgt
  · exact sphere_hitO_build2 s r t_min t_max hd hle (lt_of_lt_of_le hlt hT) hgt

/-- The full-range hit persists under any tighter upper bound that still
exceeds its parameter, with the identical record. -/
lemma sphere_hitO_mono_down (s : Sphere) (r : Ray) (t_min T t_max : ℝ)
    (hr : HitRec) (h : sphere_hitO s r t_min t_max = some hr)
    (hrT : hr.t < T) : sphere_hitO s r t_min T = some hr := by
  obtain ⟨hd, hcase⟩ := sphere_hitO_char s r t_min t_max hr h
  rcases hcase with ⟨rfl, hlt, hgt⟩ | ⟨rfl, hlt, hgt, hle⟩
  · exact sphere_hitO_build1 s r t_min T hd hrT hgt
  · exact sphere_hitO_build2 s r t_min T hd hle hrT hgt

/-- The loop state of `hitable_list::hit` (hitable.h): the local `temp_rec`,
the `hit_anything` flag, the shrinking `closest_so_far` bound, and the
caller's `rec` out-parameter. -/
structure ListHitState where
  temp : HitRec
  hit_anything : Bool
  closest : ℝ
  out_rec : HitRec

/-- One iteration of the loop body of `hitable_list::hit`. -/
def list_hit_step (r : Ray) (t_min : ℝ) (st : ListHitState) (obj : Sphere) :
    ListHitState :=
  let res := sphere_hit obj r t_min st.closest st.temp
  if res.1 then ⟨res.2, true, res.2.t, res.2⟩
  else ⟨res.2, st.hit_anything, st.closest, st.out_rec⟩

/-- `hitable_list::hit` (hitable.h) with the `rec` out-parameter explicit:
`temp_rec` starts default-initialized, `hit_anything` false and
`closest_so_far` at `t_max`; each object is tested against the current
`closest_so_far` and a hit shrinks the bound and copies `temp_rec` into
`rec`. -/
def hitable_list_hit (objs : List Sphere) (r : Ray) (t_min t_max : ℝ)
    (rec : HitRec) : Bool × HitRec :=
  let st := objs.foldl (list_hit_step r t_min) ⟨default_rec, false, t_max, rec⟩
  (st.hit_anything, st.out_rec)

/-- The same fold at the `Option` level: the accumulator is the best record
so far, the current bound being `t_max` when none and its `t` otherwise. -/
def hit_step (r : Ray) (t_min t_max : ℝ) (acc : Option HitRec) (obj : Sphere) :
    Option HitRec :=
  match sphere_hitO obj r t_min (acc.elim t_max HitRec.t) with
  | some h => some h
  | none => acc

/-- The closest-hit search of `hitable_list::hit` at the `Option` level. -/
def hit_fold (r : Ray) (t_min t_max : ℝ) (objs : List Sphere) : Option HitRec :=
  objs.foldl (hit_step r t_min t_max) none

lemma list_fold_corr (r : Ray) (t_min t_max : ℝ) (rec0 : HitRec) :
    ∀ (objs : List Sphere) (st : ListHitState) (acc : Option HitRec),
      st.hit_anything = acc.isSome → st.out_rec = acc.getD rec0 →
      st.closest = acc.elim t_max HitRec.t →
      ((objs.foldl (list_hit_step r t_min) st).hit_anything =
          (objs.foldl (hit_step r t_min t_max) acc).isSome ∧
        (objs.foldl (list_hit_step r t_min) st).out_rec =
          (objs.foldl (hit_step r t_min t_max) acc).getD rec0 ∧
        (objs.foldl (list_hit_step r t_min) st).closest =
          (objs.foldl (hit_step r t_min t_max) acc).elim t_max HitRec.t) := by
  intro objs
  induction objs with
  | nil => intro st acc h1 h2 h3; exact ⟨h1, h2, h3⟩
  | cons s objs ih =>
    intro st acc h1 h2 h3
    simp only [List.foldl_cons]
    have hstep := sphere_hit_eq_opt s r t_min st.closest st.temp
    rcases hO : sphere_hitO s r t_min st.closest with _ | h
    · have hres : sphere_hit s r t_min st.closest st.temp = (false, st.temp) := by
        rw [hstep, hO]; rfl
      have hst : list_hit_step r t_min st s =
          ⟨st.temp, st.hit_anything, st.closest, st.out_rec⟩ := by
        simp [list_hit_step, hres]
      have hacc : hit_step r t_min t_max acc s = acc := by
        simp only [hit_step, ← h3, hO]
      rw [hst, hacc]
      exact ih _ acc h1 h2 h3
    · have hres : sphere_hit s r t_min st.closest st.temp = (true, h) := by
        rw [hstep, hO]; rfl
      have hst : list_hit_step r t_min st s = ⟨h, true, h.t, h⟩ := by
        simp [list_hit_step, hres]
      have hacc : hit_step r t_min t_max acc s = some h := by
        simp only [hit_step, ← h3, hO]
      rw [hst, hacc]
      exact ih _ (some h) rfl rfl rfl

/-- `hitable_list::hit` is determined by the `Option`-level fold: a `some`
result is reported as a hit with that record, a `none` result reports a miss
and leaves the out-parameter untouched. -/
lemma hitable_list_hit_eq_fold (objs : List Sphere) (r : Ray) (t_min t_max : ℝ)
    (rec0 : HitRec) :
    hitable_list_hit objs r t_min t_max rec0 =
      (hit_fold r t_min t_max objs).elim (false, rec0) (fun h => (true, h)) := by
  have := list_fold_corr r t_min t_max rec0 objs
    ⟨default_rec, false, t_max, rec0⟩ none rfl rfl rfl
  obtain ⟨h1, h2, h3⟩ := this
  simp only [hitable_list_hit, hit_fold]
  rcases hF : (objs.foldl (hit_step r t_min t_max) none) with _ | h
  · rw [hF] at h1 h2
    simp only [Option.isSome_none] at h1
    simp only [Option.getD_none] at h2
    simp [h1, h2, Option.elim]
  · rw [hF] at h1 h2
    simp only [Option.isSome_some] at h1
    simp only [Option.getD_some] at h2
    simp [h1, h2, Option.elim]

/-- Invariant of the closest-hit fold: starting from an accumulator whose
parameter is strictly in range, the final result is a miss exactly when the
accumulator was empty and every sphere misses the full range; a final hit is
either the starting accumulator or some sphere's full-range hit, and its
parameter is a lower bound for the accumulator and every sphere's full-range
hit. -/
lemma hit_fold_go_spec (r : Ray) (t_min t_max : ℝ) :
    ∀ (objs : List Sphere) (acc : Option HitRec),
      (∀ a, acc = some a → t_min < a.t ∧ a.t < t_max) →
      ((objs.foldl (hit_step r t_min t_max) acc = none →
          acc = none ∧ ∀ s ∈ objs, sphere_hitO s r t_min t_max = none) ∧
        (∀ rec, objs.foldl (hit_step r t_min t_max) acc = some rec →
          (t_min < rec.t ∧ rec.t < t_max) ∧
          (acc = some rec ∨ ∃ s ∈ objs, sphere_hitO s r t_min t_max = some rec) ∧
          (∀ a, acc = some a → rec.t ≤ a.t) ∧
          (∀ s ∈ objs, ∀ hr, sphere_hitO s r t_min t_max = some hr →
            rec.t ≤ hr.t))) := by
  intro objs
  induction objs with
  | nil =>
    intro acc hacc
    refine ⟨fun h => ⟨h, by simp⟩, fun rec h => ?_⟩
    simp only [List.foldl_nil] at h
    exact ⟨hacc rec h, Or.inl h, fun a ha => by rw [h] at ha; cases ha; exact le_refl _,
      by simp⟩
  | cons s objs ih =>
    intro acc hacc
    simp only [List.foldl_cons]
    have hB : acc.elim t_max HitRec.t ≤ t_max := by
      rcases acc with _ | a
      · exact le_refl _
      · exact le_of_lt (hacc a rfl).2
    rcases hO : sphere_hitO s r t_min (acc.elim t_max HitRec.t) with _ | h
    · have hstep : hit_step r t_min t_max acc s = acc := by
        simp only [hit_step, hO]
      rw [hstep]
      obtain ⟨ihn, ihs⟩ := ih acc hacc
      constructor
      · intro hres
        obtain ⟨haccn, hall⟩ := ihn hres
        refine ⟨haccn, fun s' hs' => ?_⟩
        rcases List.mem_cons.mp hs' with rfl | hs'
        · rw [haccn] at hO
          exact hO
        · exact hall s' hs'
      · intro rec hres
        obtain ⟨hbounds, hor, hleacc, hmin⟩ := ihs rec hres
        refine ⟨hbounds, ?_, hleacc, fun s' hs' hr hfull => ?_⟩
        · rcases hor with heq | ⟨s', hs', hfull'⟩
          · exact Or.inl heq
          · exact Or.inr ⟨s', List.mem_cons_of_mem s hs', hfull'⟩
        · rcases List.mem_cons.mp hs' with rfl | hs'
          · rcases hacc2 : acc with _ | a
            · rw [hacc2] at hO
              simp only [Option.elim] at hO
              rw [hO] at hfull
              cases hfull
            · have haT := hleacc a hacc2
              rw [hacc2] at hO
              simp only [Option.elim] at hO
              by_cases hlt : hr.t < a.t
              · exact absurd (sphere_hitO_mono_down s' r t_min a.t t_max hr hfull hlt)
                  (by rw [hO]; simp)
              · exact le_trans haT (le_of_not_lt hlt)
          · exact hmin s' hs' hr hfull
    · have hstep : hit_step r t_min t_max acc s = some h := by
        simp only [hit_step, hO]
      rw [hstep]
      have hb := sphere_hitO_bounds s r t_min (acc.elim t_max HitRec.t) h hO
      have hfull_s : sphere_hitO s r t_min t_max = some h :=
        sphere_hitO_mono_up s r t_min (acc.elim t_max HitRec.t) t_max hB h hO
      have hacc' : ∀ a, some h = some a → t_min < a.t ∧ a.t < t_max := by
        intro a ha
        cases ha
        exact ⟨hb.1, lt_of_lt_of_le hb.2 hB⟩
      obtain ⟨ihn, ihs⟩ := ih (some h) hacc'
      constructor
      · intro hres
        obtain ⟨habs, _⟩ := ihn hres
        cases habs
      · intro rec hres
        obtain ⟨hbounds, hor, hleacc, hmin⟩ := ihs rec hres
        have hrech : rec.t ≤ h.t := hleacc h rfl
        refine ⟨hbounds, ?_, fun a ha => ?_, fun s' hs' hr hfull => ?_⟩
        · rcases hor with heq | ⟨s', hs', hfull'⟩
          · exact Or.inr ⟨s, List.mem_cons_self s objs, by rw [hfull_s, heq]⟩
          · exact Or.inr ⟨s', List.mem_cons_of_mem s hs', hfull'⟩
        · rw [ha] at hO hb
          simp only [Option.elim] at hO hb
          exact le_trans hrech (le_of_lt hb.2)
        · rcases List.mem_cons.mp hs' with rfl | hs'
          · rw [hfull_s] at hfull
            cases hfull
            exact hrech
          · exact hmin s' hs' hr hfull

/-- The list search misses exactly when every sphere misses the full range. -/
lemma hit_fold_none_iff (r : Ray) (t_min t_max : ℝ) (objs : List Sphere) :
    hit_fold r t_min t_max objs = none ↔
      ∀ s ∈ objs, sphere_hitO s r t_min t_max = none := by
  obtain ⟨hn, hs⟩ := hit_fold_go_spec r t_min t_max objs none (by simp)
  constructor
  · intro h
    exact (hn h).2
  · intro hall
    rcases hF : hit_fold r t_min t_max objs with _ | rec
    · rfl
    · obtain ⟨_, hor, _, _⟩ := hs rec hF
      rcases hor with heq | ⟨s, hmem, hfull⟩
      · cases heq
      · rw [hall s hmem] at hfull
        cases hfull

/-- A successful list search is realized by some sphere's full-range hit and
its parameter is minimal among all spheres' full-range hits. -/
lemma hit_fold_some_spec (r : Ray) (t_min t_max : ℝ) (objs : List Sphere)
    (rec : HitRec) (h : hit_fold r t_min t_max objs = some rec) :
    (t_min < rec.t ∧ rec.t < t_max) ∧
      (∃ s ∈ objs, sphere_hitO s r t_min t_max = some rec) ∧
      (∀ s ∈ objs, ∀ hr, sphere_hitO s r t_min t_max = some hr →
        rec.t ≤ hr.t) := by
  obtain ⟨_, hs⟩ := hit_fold_go_spec r t_min t_max objs none (by simp)
  obtain ⟨hbounds, hor, _, hmin⟩ := hs rec h
  rcases hor with heq | hex
  · cases heq
  · exact ⟨hbounds, hex, hmin⟩

/-- The state of `camera` (camera.h) after construction. -/
structure Camera where
  origin : Vec3
  horizontal : Vec3
  vertical : Vec3
  lower_left_corner : Vec3

/-- The `camera` constructor (camera.h): viewport from the vertical field of
view and aspect ratio, orthonormal basis from look-from/look-at/up. -/
def camera_mk (lookfrom lookat vup : Vec3) (vfov aspect : ℝ) : Camera :=
  let theta := vfov * Real.pi / 180
  let half_height := Real.tan (theta / 2)
  let half_width := aspect * half_height
  let origin := lookfrom
  let w := unit_vector (lookfrom - lookat)
  let u := unit_vector (cross vup w)
  let v := cross w u
  let lower_left_corner := origin - half_width • u - half_height • v - w
  ⟨origin, (2 * half_width) • u, (2 * half_height) • v, lower_left_corner⟩

/-- `camera::get_ray` (camera.h). -/
def get_ray (cam : Camera) (s t : ℝ) : Ray :=
  ⟨cam.origin, cam.lower_left_corner + s • cam.horizontal + t • cam.vertical -
    cam.origin⟩

/-- `metal::reflect` and `dielectric::reflect` (material.h):
`v - 2·(v·n)·n`. -/
def reflect (v n : Vec3) : Vec3 := v - (2 * dot v n) • n

/-- `dielectric::refract` (material.h).  The C++ `refracted` out-parameter is
a fresh default-initialized `vec3` at the call site which the function leaves
untouched when refraction fails, so a failure returns `(0,0,0)`. -/
def refract (v n : Vec3) (ni_over_nt : ℝ) : Bool × Vec3 :=
  let uv := unit_vector v
  let dt := dot uv n
  let discriminant := 1 - ni_over_nt * ni_over_nt * (1 - dt * dt)
  if 0 < discriminant then
    (true, ni_over_nt • (uv - dt • n) - Real.sqrt discriminant • n)
  else
    (false, ⟨0, 0, 0⟩)

/-- `dielectric::schlick` (material.h). -/
def schlick (ref_idx cosine : ℝ) : ℝ :=
  let r0 := (1 - ref_idx) / (1 + ref_idx)
  let r0s := r0 * r0
  r0s + (1 - r0s) * (1 - cosine) ^ (5 : ℕ)

/-- The random-generation state of vec3.h and material.h made explicit.
`random_float` uses function-local `static` distribution and generator
objects: `captured` records the distribution's parameters, fixed by the
first call; `stream` is the sequence of unit-interval draws produced by the
static `mt19937` generator, consumed at index `idx`.  `crand`/`cidx` model
the separate `rand()/RAND_MAX` draws (values in `[0,1]`, since `rand()` can
return `RAND_MAX`) consumed by `dielectric::scatter`. -/
structure RState where
  captured : Option (ℝ × ℝ)
  stream : ℕ → ℝ
  idx : ℕ
  crand : ℕ → ℝ
  cidx : ℕ

/-- `random_float` (vec3.h).  The `static uniform_real_distribution(min, max)`
is constructed on the first call only, so every call draws from the range
captured then; a uniform draw from `[a, b)` is `a + u·(b - a)` for a unit
draw `u`. -/
def random_float (mn mx : ℝ) (s : RState) : ℝ × RState :=
  let p := s.captured.getD (mn, mx)
  (p.1 + s.stream s.idx * (p.2 - p.1),
    { s with captured := some p, idx := s.idx + 1 })

/-- `random_vec3` (vec3.h): three draws from `random_float(min, max)` (the
C++ argument evaluation order is unspecified; drawn here left to right). -/
def random_vec3 (mn mx : ℝ) (s : RState) : Vec3 × RState :=
  let a := random_float mn mx s
  let b := random_float mn mx a.2
  let c := random_float mn mx b.2
  (⟨a.1, b.1, c.1⟩, c.2)

/-- `random_in_unit_sphere` (vec3.h): rejection sampling of
`random_vec3(-1, 1)` until the squared length falls below 1.  The C++ loop
is unbounded; `fuel` bounds the number of candidate draws modelled, with the
zero vector returned on exhaustion. -/
def random_in_unit_sphere (fuel : ℕ) (s : RState) : Vec3 × RState :=
  match fuel with
  | 0 => (⟨0, 0, 0⟩, s)
  | fuel + 1 =>
    let pc := random_vec3 (-1) 1 s
    if 1 ≤ pc.1.squared_length then random_in_unit_sphere fuel pc.2
    else pc

/-- The `scatter` methods of material.h, dispatched on the material kind.
The result's first component is the C++ return value, then the
`attenuation` and `scattered` out-parameters after the call. -/
def scatter (m : Material) (r_in : Ray) (rec : HitRec) (fuel : ℕ)
    (s : RState) : (Bool × Vec3 × Ray) × RState :=
  match m with
  | Material.lambertian albedo =>
    let riu := random_in_unit_sphere fuel s
    let target := rec.p + rec.normal + riu.1
    ((true, albedo, ⟨rec.p, target - rec.p⟩), riu.2)
  | Material.metal albedo =>
    let reflected := reflect (unit_vector r_in.dir) rec.normal
    let scattered : Ray := ⟨rec.p, reflected⟩
    ((if 0 < dot scattered.dir rec.normal then true else false, albedo,
      scattered), s)
  | Material.dielectric ref_idx =>
    let reflected := reflect (unit_vector r_in.dir) rec.normal
    let attenuation : Vec3 := ⟨1, 1, 1⟩
    let entering := dot r_in.dir rec.normal
    let outward_normal := if 0 < entering then -rec.normal else rec.normal
    let ni_over_nt := if 0 < entering then ref_idx else 1 / ref_idx
    let cosine :=
      if 0 < entering then ref_idx * dot r_in.dir rec.normal / r_in.dir.length
      else -dot r_in.dir rec.normal / r_in.dir.length
    let rr := refract r_in.dir outward_normal ni_over_nt
    let reflect_prob := if rr.1 then schlick ref_idx cosine else 1
    let u := s.crand s.cidx
    let s' := { s with cidx := s.cidx + 1 }
    let scattered := if u < reflect_prob then Ray.mk rec.p reflected
      else Ray.mk rec.p rr.2
    ((true, attenuation, scattered), s')

/-- `FLT_MAX`, the largest finite single-precision value
`(2 - 2⁻²³) · 2¹²⁷`, used as the query upper bound in `color`. -/
def flt_max : ℝ := (2 - (2 : ℝ) ^ (-23 : ℤ)) * 2 ^ (127 : ℕ)

/-- `color` (main.cpp): the recursive path-tracing function.  Returns black
past depth 50; otherwise queries the scene on `(0.0001, FLT_MAX)`, asks the
hit material to scatter and recurses at `depth + 1` weighting by the
attenuation, and on a miss returns the vertical background gradient. -/
def color (world : List Sphere) (fuel : ℕ) (r : Ray) (depth : ℤ)
    (s : RState) : Vec3 × RState :=
  if 50 < depth then (⟨0, 0, 0⟩, s)
  else
    let res := hitable_list_hit world r (1 / 10000) flt_max default_rec
    if res.1 then
      let sc := scatter res.2.mat r res.2 fuel s
      if sc.1.1 then
        let rest := color world fuel sc.1.2.2 (depth + 1) sc.2
        (sc.1.2.1 * rest.1, rest.2)
      else (⟨0, 0, 0⟩, sc.2)
    else
      let unit_direction := unit_vector r.dir
      let t := 1 / 2 * (unit_direction.y + 1)
      ((1 - t) • (⟨1, 1, 1⟩ : Vec3) + t • (⟨1 / 2, 7 / 10, 1⟩ : Vec3), s)
termination_by (51 - depth).toNat
decreasing_by
  omega

/-- C2: the recursive `color` function returns exactly `(0,0,0)` whenever it
is called with depth strictly greater than 50, regardless of scene, ray,
fuel or random state. -/
theorem color_depth_cutoff (world : List Sphere) (fuel : ℕ) (r : Ray)
    (depth : ℤ) (s : RState) (h : 50 < depth) :
    (color world fuel r depth s).1 = ⟨0, 0, 0⟩ := by
  rw [color]
  simp [h]

/-- Witness for C2 at depth 51 on a concrete scene, ray and random state. -/
theorem color_depth_cutoff_witness :
    (color [] 0 ⟨⟨0, 0, 0⟩, ⟨0, 0, 1⟩⟩ 51
        ⟨none, fun _ => 0, 0, fun _ => 0, 0⟩).1 = ⟨0, 0, 0⟩ :=
  color_depth_cutoff [] 0 ⟨⟨0, 0, 0⟩, ⟨0, 0, 1⟩⟩ 51
    ⟨none, fun _ => 0, 0, fun _ => 0, 0⟩ (by norm_num)

/-- C5: whenever `sphere::hit` reports a hit, the reported parameter lies
strictly inside the queried interval `(t_min, t_max)`. -/
theorem sphere_hit_t_strictly_in_range (s : Sphere) (r : Ray)
    (t_min t_max : ℝ) (rec0 hr : HitRec) (h : t_min < t_max)
    (hhit : sphere_hit s r t_min t_max rec0 = (true, hr)) :
    t_min < hr.t ∧ hr.t < t_max :=
  sphere_hitO_bounds s r t_min t_max hr
    ((sphere_hit_true_iff s r t_min t_max rec0 hr).mp hhit)

/-- The sphere, ray and accepted record of the concrete hit used by the
witnesses: a unit sphere at the origin hit by a ray from `(0,0,-2)` along
`(0,0,1)` at parameter `t = 1`. -/
def wit_sphere : Sphere := ⟨⟨0, 0, 0⟩, 1, Material.metal ⟨1, 1, 1⟩⟩

/-- The witness ray hitting `wit_sphere` at `t = 1`. -/
def wit_ray : Ray := ⟨⟨0, 0, -2⟩, ⟨0, 0, 1⟩⟩

/-- The record `sphere::hit` writes for `wit_sphere` and `wit_ray`. -/
def wit_rec : HitRec := ⟨1, ⟨0, 0, -1⟩, ⟨0, 0, -1⟩, Material.metal ⟨1, 1, 1⟩⟩

lemma wit_sphere_hit :
    sphere_hit wit_sphere wit_ray 0 10 default_rec = (true, wit_rec) := by
  simp only [sphere_hit, wit_sphere, wit_ray, wit_rec, dot, Ray.point_at,
    Vec3.sub_x, Vec3.sub_y, Vec3.sub_z, Vec3.add_x, Vec3.add_y, Vec3.add_z,
    Vec3.smul_x, Vec3.smul_y, Vec3.smul_z, Vec3.div_x, Vec3.div_y, Vec3.div_z]
  norm_num [Real.sqrt_one, Vec3.ext_iff]

/-- Witness for C5 at the concrete hit. -/
theorem sphere_hit_t_strictly_in_range_witness :
    (0 : ℝ) < wit_rec.t ∧ wit_rec.t < 10 :=
  sphere_hit_t_strictly_in_range wit_sphere wit_ray 0 10 default_rec wit_rec
    (by norm_num) wit_sphere_hit

/-- C9: reflecting about a unit normal twice returns the original vector. -/
theorem reflect_involution (v n : Vec3) (h : n.length = 1) :
    reflect (reflect v n) n = v := by
  have hsq := Real.sq_sqrt (Vec3.squared_length_nonneg n)
  rw [show Real.sqrt n.squared_length = 1 from h] at hsq
  have hsl : n.x * n.x + n.y * n.y + n.z * n.z = 1 := by
    simpa [Vec3.squared_length] using hsq.symm
  ext
  · simp only [reflect, dot, Vec3.sub_x, Vec3.sub_y, Vec3.sub_z,
      Vec3.smul_x, Vec3.smul_y, Vec3.smul_z]
    linear_combination (4 * (v.x * n.x + v.y * n.y + v.z * n.z) * n.x) * hsl
  · simp only [reflect, dot, Vec3.sub_x, Vec3.sub_y, Vec3.sub_z,
      Vec3.smul_x, Vec3.smul_y, Vec3.smul_z]
    linear_combination (4 * (v.x * n.x + v.y * n.y + v.z * n.z) * n.y) * hsl
  · simp only [reflect, dot, Vec3.sub_x, Vec3.sub_y, Vec3.sub_z,
      Vec3.smul_x, Vec3.smul_y, Vec3.smul_z]
    linear_combination (4 * (v.x * n.x + v.y * n.y + v.z * n.z) * n.z) * hsl

/-- Witness for C9 at `v = (1,2,3)`, `n = (0,0,1)`. -/
theorem reflect_involution_witness :
    reflect (reflect ⟨1, 2, 3⟩ ⟨0, 0, 1⟩) ⟨0, 0, 1⟩ = (⟨1, 2, 3⟩ : Vec3) :=
  reflect_involution ⟨1, 2, 3⟩ ⟨0, 0, 1⟩
    (by norm_num [Vec3.length, Vec3.squared_length, Real.sqrt_one])

/-- C10: on a miss (returned flag false) both `sphere::hit` and
`hitable_list::hit` leave the caller's `rec` out-parameter unchanged. -/
theorem hit_miss_leaves_rec_unchanged (s : Sphere) (objs : List Sphere)
    (r : Ray) (t_min t_max : ℝ) (rec1 rec2 : HitRec) (h : t_min < t_max)
    (hs : (sphere_hit s r t_min t_max rec1).1 = false)
    (hl : (hitable_list_hit objs r t_min t_max rec2).1 = false) :
    (sphere_hit s r t_min t_max rec1).2 = rec1 ∧
      (hitable_list_hit objs r t_min t_max rec2).2 = rec2 := by
  constructor
  · rw [sphere_hit_eq_opt] at hs ⊢
    rcases hO : sphere_hitO s r t_min t_max with _ | hh
    · rfl
    · rw [hO] at hs
      simp [Option.elim] at hs
  · rw [hitable_list_hit_eq_fold] at hl ⊢
    rcases hF : hit_fold r t_min t_max objs with _ | hh
    · rfl
    · rw [hF] at hl
      simp [Option.elim] at hl

/-- The witness ray missing `wit_sphere`: origin `(0,0,5)`, direction
`(1,0,0)`, giving a negative discriminant. -/
def miss_ray : Ray := ⟨⟨0, 0, 5⟩, ⟨1, 0, 0⟩⟩

lemma wit_sphere_miss :
    (sphere_hit wit_sphere miss_ray 0 10 wit_rec).1 = false := by
  simp only [sphere_hit, wit_sphere, miss_ray, dot, Vec3.sub_x, Vec3.sub_y,
    Vec3.sub_z]
  norm_num

lemma wit_list_miss :
    (hitable_list_hit [wit_sphere] miss_ray 0 10 wit_rec).1 = false := by
  have hm : sphere_hit wit_sphere miss_ray 0 10 default_rec = (false, default_rec) := by
    simp only [sphere_hit, wit_sphere, miss_ray, dot, Vec3.sub_x, Vec3.sub_y,
      Vec3.sub_z]
    norm_num
  simp [hitable_list_hit, list_hit_step, hm]

/-- Witness for C10 at the concrete miss. -/
theorem hit_miss_leaves_rec_unchanged_witness :
    (sphere_hit wit_sphere miss_ray 0 10 wit_rec).2 = wit_rec ∧
      (hitable_list_hit [wit_sphere] miss_ray 0 10 wit_rec).2 = wit_rec :=
  hit_miss_leaves_rec_unchanged wit_sphere [wit_sphere] miss_ray 0 10 wit_rec
    wit_rec (by norm_num) wit_sphere_miss wit_list_miss

/-- C1: `hitable_list::hit` reports a hit exactly when some listed sphere
has a valid hit over the full `(t_min, t_max)` range, and the reported
parameter is at most the parameter any individual sphere's hit would accept
over that full range. -/
theorem hitable_list_hit_closest (objs : List Sphere) (r : Ray)
    (t_min t_max : ℝ) (rec0 : HitRec) (h : t_min < t_max) :
    ((hitable_list_hit objs r t_min t_max rec0).1 = true ↔
      ∃ s ∈ objs, ∃ hr, sphere_hit s r t_min t_max default_rec = (true, hr)) ∧
    (∀ rec, hitable_list_hit objs r t_min t_max rec0 = (true, rec) →
      ∀ s ∈ objs, ∀ hr, sphere_hit s r t_min t_max default_rec = (true, hr) →
        rec.t ≤ hr.t) := by
  constructor
  · constructor
    · intro hflag
      rw [hitable_list_hit_eq_fold] at hflag
      rcases hF : hit_fold r t_min t_max objs with _ | rec
      · rw [hF] at hflag
        simp [Option.elim] at hflag
      · obtain ⟨_, ⟨s, hmem, hfull⟩, _⟩ :=
          hit_fold_some_spec r t_min t_max objs rec hF
        exact ⟨s, hmem, rec,
          (sphere_hit_true_iff s r t_min t_max default_rec rec).mpr hfull⟩
    · rintro ⟨s, hmem, hr, hhit⟩
      rw [hitable_list_hit_eq_fold]
      rcases hF : hit_fold r t_min t_max objs with _ | rec
      · have hnone := (hit_fold_none_iff r t_min t_max objs).mp hF s hmem
        rw [(sphere_hit_true_iff s r t_min t_max default_rec hr).mp hhit] at hnone
        cases hnone
      · rfl
  · intro rec hres s hmem hr hhit
    rw [hitable_list_hit_eq_fold] at hres
    rcases hF : hit_fold r t_min t_max objs with _ | rec'
    · rw [hF] at hres
      simp [Option.elim] at hres
    · rw [hF] at hres
      simp only [Option.elim_some] at hres
      have hrec : rec' = rec := (Prod.ext_iff.mp hres).2
      obtain ⟨_, _, hmin⟩ := hit_fold_some_spec r t_min t_max objs rec' hF
      exact hrec ▸ hmin s hmem hr
        ((sphere_hit_true_iff s r t_min t_max default_rec hr).mp hhit)

/-- C8 (amended): the returned flag and parameter `t` of `hitable_list::hit`
are invariant under permutation of the list (the full record need not be
when two spheres hit at exactly the same parameter). -/
theorem hitable_list_hit_perm_flag_t (objs objs' : List Sphere) (r : Ray)
    (t_min t_max : ℝ) (rec0 rec0' : HitRec) (hperm : objs.Perm objs')
    (h : t_min < t_max) :
    ((hitable_list_hit objs r t_min t_max rec0).1 =
      (hitable_list_hit objs' r t_min t_max rec0').1) ∧
    (∀ rec rec', hitable_list_hit objs r t_min t_max rec0 = (true, rec) →
      hitable_list_hit objs' r t_min t_max rec0' = (true, rec') →
      rec.t = rec'.t) := by
  rw [hitable_list_hit_eq_fold, hitable_list_hit_eq_fold]
  rcases hF : hit_fold r t_min t_max objs with _ | rec1 <;>
    rcases hF' : hit_fold r t_min t_max objs' with _ | rec2
  · exact ⟨rfl, fun rec rec' hres _ => by simp [Option.elim] at hres⟩
  · exfalso
    have hall := (hit_fold_none_iff r t_min t_max objs).mp hF
    have hall' : ∀ s ∈ objs', sphere_hitO s r t_min t_max = none := fun s hs =>
      hall s (hperm.mem_iff.mpr hs)
    have hnone := (hit_fold_none_iff r t_min t_max objs').mpr hall'
    rw [hnone] at hF'
    cases hF'
  · exfalso
    have hall := (hit_fold_none_iff r t_min t_max objs').mp hF'
    have hall' : ∀ s ∈ objs, sphere_hitO s r t_min t_max = none := fun s hs =>
      hall s (hperm.mem_iff.mp hs)
    have hnone := (hit_fold_none_iff r t_min t_max objs).mpr hall'
    rw [hnone] at hF
    cases hF
  · obtain ⟨_, ⟨s1, hm1, hfull1⟩, hmin1⟩ :=
      hit_fold_some_spec r t_min t_max objs rec1 hF
    obtain ⟨_, ⟨s2, hm2, hfull2⟩, hmin2⟩ :=
      hit_fold_some_spec r t_min t_max objs' rec2 hF'
    have h12 : rec1.t ≤ rec2.t :=
      hmin1 s2 (hperm.mem_iff.mpr hm2) rec2 hfull2
    have h21 : rec2.t ≤ rec1.t :=
      hmin2 s1 (hperm.mem_iff.mp hm1) rec1 hfull1
    refine ⟨rfl, fun rec rec' hres hres' => ?_⟩
    simp only [Option.elim_some] at hres hres'
    have e1 : rec1 = rec := (Prod.ext_iff.mp hres).2
    have e2 : rec2 = rec' := (Prod.ext_iff.mp hres').2
    rw [← e1, ← e2]
    exact le_antisymm h12 h21

/-- The counterexample ray for C8, along the negative z-axis. -/
def cex_ray : Ray := ⟨⟨0, 0, 0⟩, ⟨0, 0, -1⟩⟩

/-- First C8 sphere: unit sphere entered by `cex_ray` at `t = 4`. -/
def cex_sphere1 : Sphere := ⟨⟨0, 0, -5⟩, 1, Material.lambertian ⟨1, 0, 0⟩⟩

/-- Second C8 sphere: radius-5 sphere also entered by `cex_ray` at `t = 4`,
through the same point but with a different surface normal. -/
def cex_sphere2 : Sphere := ⟨⟨3, 0, -8⟩, 5, Material.lambertian ⟨0, 1, 0⟩⟩

/-- The record `cex_sphere1` writes at its `t = 4` hit. -/
def cex_rec1 : HitRec := ⟨4, ⟨0, 0, -4⟩, ⟨0, 0, 1⟩, Material.lambertian ⟨1, 0, 0⟩⟩

/-- The record `cex_sphere2` writes at its `t = 4` hit. -/
def cex_rec2 : HitRec :=
  ⟨4, ⟨0, 0, -4⟩, ⟨-(3 / 5), 0, 4 / 5⟩, Material.lambertian ⟨0, 1, 0⟩⟩

lemma sqrt_sixteen : Real.sqrt 16 = 4 := by
  rw [show (16 : ℝ) = 4 ^ 2 by norm_num, Real.sqrt_sq (by norm_num : (0 : ℝ) ≤ 4)]

lemma cex_hit1 (rec : HitRec) :
    sphere_hit cex_sphere1 cex_ray 0 100 rec = (true, cex_rec1) := by
  simp only [sphere_hit, cex_sphere1, cex_ray, cex_rec1, dot, Ray.point_at,
    Vec3.sub_x, Vec3.sub_y, Vec3.sub_z, Vec3.add_x, Vec3.add_y, Vec3.add_z,
    Vec3.smul_x, Vec3.smul_y, Vec3.smul_z, Vec3.div_x, Vec3.div_y, Vec3.div_z]
  norm_num [Real.sqrt_one, Vec3.ext_iff]

lemma cex_hit2 (rec : HitRec) :
    sphere_hit cex_sphere2 cex_ray 0 100 rec = (true, cex_rec2) := by
  simp only [sphere_hit, cex_sphere2, cex_ray, cex_rec2, dot, Ray.point_at,
    Vec3.sub_x, Vec3.sub_y, Vec3.sub_z, Vec3.add_x, Vec3.add_y, Vec3.add_z,
    Vec3.smul_x, Vec3.smul_y, Vec3.smul_z, Vec3.div_x, Vec3.div_y, Vec3.div_z]
  norm_num [sqrt_sixteen, Vec3.ext_iff]

lemma cex_hit1_tight (rec : HitRec) :
    sphere_hit cex_sphere1 cex_ray 0 4 rec = (false, rec) := by
  simp only [sphere_hit, cex_sphere1, cex_ray, dot, Vec3.sub_x, Vec3.sub_y,
    Vec3.sub_z]
  norm_num [Real.sqrt_one]

lemma cex_hit2_tight (rec : HitRec) :
    sphere_hit cex_sphere2 cex_ray 0 4 rec = (false, rec) := by
  simp only [sphere_hit, cex_sphere2, cex_ray, dot, Vec3.sub_x, Vec3.sub_y,
    Vec3.sub_z]
  norm_num [sqrt_sixteen]

lemma cex_list12 :
    hitable_list_hit [cex_sphere1, cex_sphere2] cex_ray 0 100 default_rec =
      (true, cex_rec1) := by
  have h2 : sphere_hit cex_sphere2 cex_ray 0 cex_rec1.t cex_rec1 =
      (false, cex_rec1) := by
    have : cex_rec1.t = (4 : ℝ) := rfl
    rw [this]
    exact cex_hit2_tight cex_rec1
  simp [hitable_list_hit, list_hit_step, cex_hit1, h2]

lemma cex_list21 :
    hitable_list_hit [cex_sphere2, cex_sphere1] cex_ray 0 100 default_rec =
      (true, cex_rec2) := by
  have h1 : sphere_hit cex_sphere1 cex_ray 0 cex_rec2.t cex_rec2 =
      (false, cex_rec2) := by
    have : cex_rec2.t = (4 : ℝ) := rfl
    rw [this]
    exact cex_hit1_tight cex_rec2
  simp [hitable_list_hit, list_hit_step, cex_hit2, h1]

/-- Counterexample to C8 as stated: two spheres crossing the ray at the same
parameter `t = 4` through the same point but with different normals; the
returned record depends on the insertion order. -/
theorem hitable_list_hit_perm_cex :
    (hitable_list_hit [cex_sphere1, cex_sphere2] cex_ray 0 100 default_rec).2 ≠
      (hitable_list_hit [cex_sphere2, cex_sphere1] cex_ray 0 100 default_rec).2 := by
  rw [cex_list12, cex_list21]
  intro hcontra
  have hz := congrArg (fun rec => rec.normal.z) hcontra
  norm_num [cex_rec1, cex_rec2] at hz

/-- Witness for the amended C8 on the two-sphere counterexample scene. -/
theorem hitable_list_hit_perm_flag_t_witness :
    (((hitable_list_hit [cex_sphere1, cex_sphere2] cex_ray 0 100 default_rec).1 =
      (hitable_list_hit [cex_sphere2, cex_sphere1] cex_ray 0 100 default_rec).1) ∧
    (∀ rec rec',
      hitable_list_hit [cex_sphere1, cex_sphere2] cex_ray 0 100 default_rec =
        (true, rec) →
      hitable_list_hit [cex_sphere2, cex_sphere1] cex_ray 0 100 default_rec =
        (true, rec') → rec.t = rec'.t)) :=
  hitable_list_hit_perm_flag_t [cex_sphere1, cex_sphere2]
    [cex_sphere2, cex_sphere1] cex_ray 0 100 default_rec default_rec
    (List.Perm.swap cex_sphere2 cex_sphere1 []) (by norm_num)

lemma hit_root1_quad (s : Sphere) (r : Ray) (hd : 0 < hit_disc s r) :
    hit_a r * (hit_root1 s r * hit_root1 s r) + 2 * hit_b s r * hit_root1 s r +
      hit_c s r = 0 := by
  have ha := hit_a_pos s r hd
  have hane : hit_a r ≠ 0 := ne_of_gt ha
  have hsq : Real.sqrt (hit_disc s r) * Real.sqrt (hit_disc s r) =
      hit_disc s r := Real.mul_self_sqrt (le_of_lt hd)
  have hdd : hit_disc s r = hit_b s r * hit_b s r - hit_a r * hit_c s r := rfl
  simp only [hit_root1]
  field_simp
  linear_combination (hit_a r ^ 2) * hsq + (hit_a r ^ 2) * hdd

lemma hit_root2_quad (s : Sphere) (r : Ray) (hd : 0 < hit_disc s r) :
    hit_a r * (hit_root2 s r * hit_root2 s r) + 2 * hit_b s r * hit_root2 s r +
      hit_c s r = 0 := by
  have ha := hit_a_pos s r hd
  have hane : hit_a r ≠ 0 := ne_of_gt ha
  have hsq : Real.sqrt (hit_disc s r) * Real.sqrt (hit_disc s r) =
      hit_disc s r := Real.mul_self_sqrt (le_of_lt hd)
  have hdd : hit_disc s r = hit_b s r * hit_b s r - hit_a r * hit_c s r := rfl
  simp only [hit_root2]
  field_simp
  linear_combination (hit_a r ^ 2) * hsq + (hit_a r ^ 2) * hdd

/-- Every accepted hit lies on the sphere's surface (squared distance), its
point is the ray evaluated at the accepted parameter, and its normal is the
surface offset divided by the radius. -/
lemma sphere_hitO_on_sphere (s : Sphere) (r : Ray) (t_min t_max : ℝ)
    (hr : HitRec) (h : sphere_hitO s r t_min t_max = some hr) :
    (hr.p - s.center).squared_length = s.radius * s.radius ∧
      hr.p = r.point_at hr.t ∧
      hr.normal = (hr.p - s.center) / s.radius := by
  obtain ⟨hd, hcase⟩ := sphere_hitO_char s r t_min t_max hr h
  rcases hcase with ⟨rfl, -, -⟩ | ⟨rfl, -, -, -⟩
  · refine ⟨?_, rfl, rfl⟩
    have hquad := hit_root1_quad s r hd
    simp only [hit_a, hit_b, hit_c, dot, Vec3.sub_x, Vec3.sub_y, Vec3.sub_z]
      at hquad
    simp only [hit_mk, Ray.point_at, Vec3.squared_length, Vec3.sub_x,
      Vec3.sub_y, Vec3.sub_z, Vec3.add_x, Vec3.add_y, Vec3.add_z,
      Vec3.smul_x, Vec3.smul_y, Vec3.smul_z]
    linear_combination hquad
  · refine ⟨?_, rfl, rfl⟩
    have hquad := hit_root2_quad s r hd
    simp only [hit_a, hit_b, hit_c, dot, Vec3.sub_x, Vec3.sub_y, Vec3.sub_z]
      at hquad
    simp only [hit_mk, Ray.point_at, Vec3.squared_length, Vec3.sub_x,
      Vec3.sub_y, Vec3.sub_z, Vec3.add_x, Vec3.add_y, Vec3.add_z,
      Vec3.smul_x, Vec3.smul_y, Vec3.smul_z]
    linear_combination hquad

/-- C6: for a sphere of non-zero radius and a ray with non-zero direction,
every accepted hit has a unit-length normal `(p - center)/radius` and its
point lies at distance `|radius|` from the center, in exact arithmetic. -/
theorem sphere_hit_normal_unit (s : Sphere) (r : Ray) (t_min t_max : ℝ)
    (rec0 hr : HitRec) (hrad : s.radius ≠ 0) (hdir : r.dir ≠ ⟨0, 0, 0⟩)
    (hhit : sphere_hit s r t_min t_max rec0 = (true, hr)) :
    hr.normal.length = 1 ∧ (hr.p - s.center).length = |s.radius| := by
  have hO := (sphere_hit_true_iff s r t_min t_max rec0 hr).mp hhit
  obtain ⟨hsl, hp, hn⟩ := sphere_hitO_on_sphere s r t_min t_max hr hO
  constructor
  · rw [hn]
    have h1 : ((hr.p - s.center) / s.radius).squared_length = 1 := by
      simp only [Vec3.squared_length, Vec3.div_x, Vec3.div_y, Vec3.div_z,
        Vec3.sub_x, Vec3.sub_y, Vec3.sub_z]
      simp only [Vec3.squared_length, Vec3.sub_x, Vec3.sub_y, Vec3.sub_z] at hsl
      field_simp
      linarith [hsl]
    simp only [Vec3.length, h1, Real.sqrt_one]
  · rw [Vec3.length, hsl, show s.radius * s.radius = s.radius ^ 2 by ring,
      Real.sqrt_sq_eq_abs]

/-- Witness for C6 at the concrete hit of `wit_sphere` by `wit_ray`. -/
theorem sphere_hit_normal_unit_witness :
    wit_rec.normal.length = 1 ∧
      (wit_rec.p - wit_sphere.center).length = |wit_sphere.radius| :=
  sphere_hit_normal_unit wit_sphere wit_ray 0 10 default_rec wit_rec
    (by norm_num [wit_sphere]) (by norm_num [wit_ray, Vec3.ext_iff])
    wit_sphere_hit

/-- The concrete non-degenerate camera used against C3: look from `(0,0,1)`
at the origin, up `(0,1,0)`, a 90° vertical field of view, aspect 1. -/
def cam_ex : Camera := camera_mk ⟨0, 0, 1⟩ ⟨0, 0, 0⟩ ⟨0, 1, 0⟩ 90 1

lemma cam_ex_eq :
    cam_ex = ⟨⟨0, 0, 1⟩, ⟨2, 0, 0⟩, ⟨0, 2, 0⟩, ⟨-1, -1, 0⟩⟩ := by
  have htan : Real.tan (90 * Real.pi / 180 / 2) = 1 := by
    rw [show (90 : ℝ) * Real.pi / 180 / 2 = Real.pi / 4 by ring,
      Real.tan_pi_div_four]
  simp only [cam_ex, camera_mk, htan]
  norm_num [unit_vector, cross, Vec3.length, Vec3.squared_length,
    Real.sqrt_one, Vec3.ext_iff]

/-- Counterexample to C3 as stated: for the non-degenerate camera `cam_ex`
and `s = t = 0` (both in `[0,1]`), the ray direction from `get_ray` is
`(-1,-1,-1)`, whose length is `√3`, not 1: `get_ray` does not normalize. -/
theorem get_ray_direction_not_unit_cex :
    (get_ray cam_ex 0 0).dir.length ≠ 1 := by
  rw [cam_ex_eq]
  have hdir :
      (get_ray ⟨⟨0, 0, 1⟩, ⟨2, 0, 0⟩, ⟨0, 2, 0⟩, ⟨-1, -1, 0⟩⟩ 0 0).dir =
        ⟨-1, -1, -1⟩ := by
    norm_num [get_ray, Vec3.ext_iff]
  rw [hdir]
  simp only [Vec3.length, Vec3.squared_length]
  norm_num

/-- C3 (amended): the camera does not pre-normalize its ray directions; only
the central ray `get_ray(1/2, 1/2)`, which equals the negated unit back
vector `-w`, is guaranteed to have unit length for every camera built from
non-degenerate inputs. -/
theorem get_ray_center_direction_unit (lookfrom lookat vup : Vec3)
    (vfov aspect : ℝ) (h : lookfrom ≠ lookat) :
    (get_ray (camera_mk lookfrom lookat vup vfov aspect)
        (1 / 2) (1 / 2)).dir.length = 1 := by
  have hdiff : lookfrom - lookat ≠ ⟨0, 0, 0⟩ := by
    intro hc
    apply h
    obtain ⟨h1, h2, h3⟩ := Vec3.ext_iff.mp hc
    simp only [Vec3.sub_x, Vec3.sub_y, Vec3.sub_z] at h1 h2 h3
    ext <;> simp_all <;> linarith
  have hdir : (get_ray (camera_mk lookfrom lookat vup vfov aspect)
      (1 / 2) (1 / 2)).dir = -(unit_vector (lookfrom - lookat)) := by
    simp only [get_ray, camera_mk]
    ext <;> simp <;> ring
  rw [hdir, Vec3.length_neg]
  exact unit_vector_length _ hdiff

/-- Witness for the amended C3 at the concrete camera inputs of `cam_ex`. -/
theorem get_ray_center_direction_unit_witness :
    (get_ray (camera_mk ⟨0, 0, 1⟩ ⟨0, 0, 0⟩ ⟨0, 1, 0⟩ 90 1)
        (1 / 2) (1 / 2)).dir.length = 1 :=
  get_ray_center_direction_unit ⟨0, 0, 1⟩ ⟨0, 0, 0⟩ ⟨0, 1, 0⟩ 90 1
    (by norm_num [Vec3.ext_iff])

/-- The random state before the program's first `random_float()` call, with
every static-generator unit draw equal to 0.95. -/
def c4_state0 : RState := ⟨none, fun _ => 19 / 20, 0, fun _ => 0, 0⟩

/-- The state after the program's first call, `random_float()` with its
default arguments 0 and 1 (the `choose_mat` draw in `randomScene`,
main.cpp), which constructs the static distribution over `[0, 1)`. -/
def c4_state1 : RState := (random_float 0 1 c4_state0).2

/-- C4 refuted (code bug): once the first call has captured the range
`[0,1]`, the later call `random_float(0, 0.9)` (the sphere-position jitter
in `randomScene`) with unit draw 0.95 returns 0.95, outside its requested
range `[0, 0.9]`; and the `random_vec3(-1, 1)` candidate drawn by
`random_in_unit_sphere` is `(0.95, 0.95, 0.95)` — candidates stay in the
captured `[0,1)` cube instead of being uniform in `[-1,1]³`. -/
theorem random_float_static_range_bug :
    (0 : ℝ) ≤ 9 / 10 ∧
    (random_float 0 (9 / 10) c4_state1).1 = 19 / 20 ∧
    ¬ (random_float 0 (9 / 10) c4_state1).1 ≤ 9 / 10 ∧
    (random_vec3 (-1) 1 c4_state1).1 = ⟨19 / 20, 19 / 20, 19 / 20⟩ := by
  refine ⟨by norm_num, ?_, ?_, ?_⟩ <;>
    norm_num [random_float, random_vec3, c4_state1, c4_state0, Vec3.ext_iff]

/-- The C7 ray, inside the dielectric and exiting: direction `(4/5, 0, 3/5)`
makes a shallow angle with the outward normal, giving total internal
reflection at refractive index 1.5. -/
def tir_ray : Ray := ⟨⟨0, 0, 0⟩, ⟨4 / 5, 0, 3 / 5⟩⟩

/-- The C7 hit record: hit point at the origin with normal `(0,0,1)`. -/
def tir_rec : HitRec := ⟨1, ⟨0, 0, 0⟩, ⟨0, 0, 1⟩, Material.dielectric (3 / 2)⟩

/-- The C7 random state: the `rand()/RAND_MAX` draw is exactly 1, which
`rand()` attains at `RAND_MAX`. -/
def tir_state : RState := ⟨none, fun _ => 0, 0, fun _ => 1, 0⟩

lemma tir_unit : unit_vector (⟨4 / 5, 0, 3 / 5⟩ : Vec3) = ⟨4 / 5, 0, 3 / 5⟩ := by
  have hsl : (⟨4 / 5, 0, 3 / 5⟩ : Vec3).squared_length = 1 := by
    norm_num [Vec3.squared_length]
  simp [unit_vector, Vec3.length, hsl, Real.sqrt_one, Vec3.ext_iff]

/-- C7 at the failing input: the refraction discriminant is negative (total
internal reflection), yet with random draw 1 `dielectric::scatter` emits the
ray direction `(0,0,0)` — the never-written default `refracted` vector —
instead of the mirror reflection `(4/5, 0, -3/5)`, because `u < reflect_prob`
fails at `u = reflect_prob = 1`. -/
theorem dielectric_tir_draw_one_bug :
    1 - (3 / 2 : ℝ) * (3 / 2) *
        (1 - dot (unit_vector tir_ray.dir) (-tir_rec.normal) *
          dot (unit_vector tir_ray.dir) (-tir_rec.normal)) < 0 ∧
    (scatter (Material.dielectric (3 / 2)) tir_ray tir_rec 0
        tir_state).1.2.2.dir = ⟨0, 0, 0⟩ ∧
    reflect (unit_vector tir_ray.dir) tir_rec.normal ≠ ⟨0, 0, 0⟩ := by
  refine ⟨?_, ?_, ?_⟩
  · norm_num [tir_ray, tir_rec, tir_unit, dot]
  · norm_num [scatter, refract, schlick, tir_ray, tir_rec, tir_state,
      tir_unit, dot, reflect, Vec3.length, Vec3.squared_length,
      Real.sqrt_one, Vec3.ext_iff]
  · norm_num [tir_ray, tir_rec, tir_unit, reflect, dot, Vec3.ext_iff]

/-- Witness for C1 on a concrete one-sphere scene. -/
theorem hitable_list_hit_closest_witness :
    (((hitable_list_hit [wit_sphere] wit_ray 0 10 default_rec).1 = true ↔
      ∃ s ∈ [wit_sphere], ∃ hr,
        sphere_hit s wit_ray 0 10 default_rec = (true, hr)) ∧
    (∀ rec, hitable_list_hit [wit_sphere] wit_ray 0 10 default_rec = (true, rec) →
      ∀ s ∈ [wit_sphere], ∀ hr,
        sphere_hit s wit_ray 0 10 default_rec = (true, hr) → rec.t ≤ hr.t)) :=
  hitable_list_hit_closest [wit_sphere] wit_ray 0 10 default_rec (by norm_num)

